import Mathlib

/-!
Verification of the TLDR code-summary pipeline.

The development shallowly embeds the core of `TLDRFileCreator.py` and
`github_adapter.py`: path handling, the signature-line parser, the
per-file record builder, the single-directory scan, the recursive
tree aggregation, the atomic JSON writer, and the GitHub URL
classifier.  Collaborators that the specification treats as black
boxes (signature extraction, LLM summarization, language detection,
the filesystem) are modelled as explicit function-valued parameters.
Python strings are modelled as Lean `String`s (with the character
list `String.data` used for lexicographic reasoning), Python
exceptions as `Except` error results, and wall-clock readings as an
explicit counter-indexed clock that is threaded through the
computation.
-/

namespace TLDR

/-! ## Path model

Simplified model of the `os.path` helpers used by the source: a path
is absolute iff it starts with `/`; `os.path.join a b` returns `b`
when `b` is absolute and otherwise splices with a `/` separator;
`os.path.abspath` prepends the current working directory to relative
paths.  Normalization of `.`/`..` components and trailing-slash
handling are not modelled (no claim depends on them). -/

/-- True iff the path string starts with `/` (model of POSIX absolute paths). -/
def isAbs (s : String) : Bool :=
  match s.data with
  | c :: _ => c == '/'
  | [] => false

/-- Model of `os.path.join` for two components. -/
def pjoin (a b : String) : String :=
  if isAbs b then b
  else if a = "" then b
  else a ++ "/" ++ b

/-- Model of `os.path.abspath` relative to a fixed working directory `cwd`. -/
def abspath (cwd p : String) : String :=
  if isAbs p then p else pjoin cwd p

/-! ## Python string primitives

The signature parser works on `str.strip`, `str.split('\n')`,
`str.startswith` and slicing.  These are modelled on the underlying
character lists. -/

/-- Characters removed by Python's `str.strip()` with no argument. -/
def pyWS (c : Char) : Bool :=
  c = ' ' || c = '\t' || c = '\n' || c = '\r' || c = '\x0b' || c = '\x0c'

/-- Drop leading characters satisfying `p` (model of `str.lstrip`). -/
def lstripBy (p : Char → Bool) (l : List Char) : List Char :=
  l.dropWhile p

/-- Drop trailing characters satisfying `p` (model of `str.rstrip`). -/
def rstripBy (p : Char → Bool) (l : List Char) : List Char :=
  (l.reverse.dropWhile p).reverse

/-- Drop characters satisfying `p` from both ends (model of `str.strip`). -/
def pyStripBy (p : Char → Bool) (l : List Char) : List Char :=
  rstripBy p (lstripBy p l)

/-- Model of Python `str.strip()` on a character list. -/
def pyStrip (l : List Char) : List Char :=
  pyStripBy pyWS l

/-- Model of Python `str.split(sep)` for a one-character separator:
splits on every occurrence of `sep`, keeping empty pieces, and yields
`[[]]` on the empty string. -/
def splitChar (sep : Char) : List Char → List (List Char)
  | [] => [[]]
  | c :: cs =>
    if c = sep then [] :: splitChar sep cs
    else
      match splitChar sep cs with
      | [] => [[c]]
      | l :: ls => (c :: l) :: ls

/-! ## The signature parser (`TLDRFileCreator._parse_signatures`) -/

/-- Keep test applied by the parser to a stripped line: non-blank and
not starting with a `#` or `//` comment marker. -/
def keepLine (l : List Char) : Bool :=
  !l.isEmpty && !(("#".data).isPrefixOf l) && !(("//".data).isPrefixOf l)

/-- Strip one leading markdown bullet marker (`- ` or `* `), as in the
source's slicing `line[2:]`. -/
def stripBullet (l : List Char) : List Char :=
  if ("- ".data).isPrefixOf l then l.drop 2
  else if ("* ".data).isPrefixOf l then l.drop 2
  else l

/-- Code-fence test the source applies after bullet stripping: the line
starts with ``` or ends with ```. -/
def fencey (l : List Char) : Bool :=
  ("```".data).isPrefixOf l || ("```".data).isSuffixOf l

/-- Per-line loop of `_parse_signatures`: strip each raw line, skip
blank and comment lines, strip a bullet marker, skip code-fence lines,
and keep the rest in order. -/
def parseLines : List (List Char) → List (List Char)
  | [] => []
  | raw :: rest =>
    let line := pyStrip raw
    if keepLine line then
      let line2 := stripBullet line
      if fencey line2 then parseLines rest
      else line2 :: parseLines rest
    else parseLines rest

/-- Model of `TLDRFileCreator._parse_signatures` on a character list:
empty or all-whitespace input yields `[]`; otherwise the text is
stripped, split on newlines, and the per-line loop is applied. -/
def parseSignaturesL (t : List Char) : List (List Char) :=
  if pyStrip t = [] then []
  else parseLines (splitChar '\n' (pyStrip t))

/-- Model of `TLDRFileCreator._parse_signatures` on strings. -/
def parse_signatures (s : String) : List String :=
  (parseSignaturesL s.data).map String.mk

/-- Pipeline stated by the claim's own words: split on line breaks,
trim each line, drop blank lines, drop comment lines, strip a bullet
marker, and drop lines that are PURE code-fence delimiters (exactly
the three-backtick string). -/
def parseSpecClaimedL (t : List Char) : List (List Char) :=
  (((splitChar '\n' t).map pyStrip).filter keepLine).map stripBullet
    |>.filter (fun l => !(l == "```".data))

/-- String-level version of the claim's pipeline. -/
def parseSpecClaimed (s : String) : List String :=
  (parseSpecClaimedL s.data).map String.mk

/-- Amended pipeline: as the claim states it, except that a line is
dropped whenever it starts or ends with a code-fence delimiter (after
bullet stripping), not only when it is exactly the delimiter. -/
def parseSpecAmendedL (t : List Char) : List (List Char) :=
  (((splitChar '\n' t).map pyStrip).filter keepLine).map stripBullet
    |>.filter (fun l => !fencey l)

/-- String-level version of the amended pipeline. -/
def parseSpecAmended (s : String) : List String :=
  (parseSpecAmendedL s.data).map String.mk

/-! ## Parser lemmas

The source strips the whole text before splitting it into lines; the
spec pipeline strips each line after splitting.  The lemmas below show
the two agree: outer whitespace only adds blank lines or padding that
per-line stripping removes anyway. -/

theorem splitChar_ne_nil (sep : Char) (t : List Char) : splitChar sep t ≠ [] := by
  induction t with
  | nil => simp [splitChar]
  | cons c cs ih =>
    by_cases h : c = sep
    · simp [splitChar, h]
    · simp only [splitChar, if_neg h]
      cases hs : splitChar sep cs with
      | nil => simp
      | cons l ls => simp

/-- Stripped, non-discarded lines of a text: the stage of the parser
that outer stripping must leave unchanged. -/
def keptLines (t : List Char) : List (List Char) :=
  ((splitChar '\n' t).map pyStrip).filter keepLine

theorem pyStrip_nil : pyStrip [] = [] := rfl

theorem keepLine_nil : keepLine [] = false := rfl

theorem pyStrip_cons_ws {c : Char} (hc : pyWS c = true) (l : List Char) :
    pyStrip (c :: l) = pyStrip l := by
  simp only [pyStrip, pyStripBy, lstripBy, List.dropWhile_cons_of_pos hc]

theorem splitChar_cons_self (sep : Char) (cs : List Char) :
    splitChar sep (sep :: cs) = [] :: splitChar sep cs := by
  simp [splitChar]

theorem splitChar_cons_ne {sep c : Char} (h : c ≠ sep) (cs : List Char) :
    splitChar sep (c :: cs) =
      match splitChar sep cs with
      | [] => [[c]]
      | l :: ls => (c :: l) :: ls := by
  simp [splitChar, h]

theorem keptLines_cons_ws {c : Char} (hc : pyWS c = true) (t : List Char) :
    keptLines (c :: t) = keptLines t := by
  by_cases hn : c = '\n'
  · subst hn
    rw [keptLines, keptLines, splitChar_cons_self, List.map_cons, pyStrip_nil,
      List.filter_cons]
    simp [keepLine_nil]
  · rw [keptLines, keptLines, splitChar_cons_ne hn]
    cases hs : splitChar '\n' t with
    | nil => exact absurd hs (splitChar_ne_nil _ _)
    | cons l ls => simp [pyStrip_cons_ws hc]

theorem splitChar_append_sep (sep : Char) (t : List Char) :
    splitChar sep (t ++ [sep]) = splitChar sep t ++ [[]] := by
  induction t with
  | nil => simp [splitChar]
  | cons c cs ih =>
    by_cases h : c = sep
    · subst h
      rw [List.cons_append, splitChar_cons_self, splitChar_cons_self, ih]
      rfl
    · rw [List.cons_append, splitChar_cons_ne h, splitChar_cons_ne h, ih]
      cases hs : splitChar sep cs with
      | nil => exact absurd hs (splitChar_ne_nil _ _)
      | cons l ls => simp

theorem splitChar_append_single {sep c : Char} (hc : c ≠ sep) (t : List Char) :
    ∃ ls l, splitChar sep t = ls ++ [l] ∧ splitChar sep (t ++ [c]) = ls ++ [l ++ [c]] := by
  induction t with
  | nil =>
    refine ⟨[], [], rfl, ?_⟩
    simp [splitChar, hc]
  | cons a t' ih =>
    obtain ⟨ls, l, h1, h2⟩ := ih
    by_cases ha : a = sep
    · subst ha
      refine ⟨[] :: ls, l, ?_, ?_⟩
      · rw [splitChar_cons_self, h1]
        rfl
      · rw [List.cons_append, splitChar_cons_self, h2]
        rfl
    · cases ls with
      | nil =>
        refine ⟨[], a :: l, ?_, ?_⟩
        · rw [splitChar_cons_ne ha, h1]
          rfl
        · rw [List.cons_append, splitChar_cons_ne ha, h2]
          rfl
      | cons x ls₂ =>
        refine ⟨(a :: x) :: ls₂, l, ?_, ?_⟩
        · rw [splitChar_cons_ne ha, h1]
          rfl
        · rw [List.cons_append, splitChar_cons_ne ha, h2]
          rfl

theorem pyStrip_append_ws {c : Char} (hc : pyWS c = true) (l : List Char) :
    pyStrip (l ++ [c]) = pyStrip l := by
  simp only [pyStrip, pyStripBy, lstripBy, List.dropWhile_append]
  by_cases he : List.dropWhile pyWS l = []
  · rw [he]
    simp [List.dropWhile_cons, hc]
  · rw [if_neg (by simpa [List.isEmpty_iff] using he)]
    simp only [rstripBy, List.reverse_append, List.reverse_cons, List.reverse_nil,
      List.nil_append, List.singleton_append, List.dropWhile_cons_of_pos hc]

theorem keptLines_append_ws {c : Char} (hc : pyWS c = true) (t : List Char) :
    keptLines (t ++ [c]) = keptLines t := by
  by_cases hn : c = '\n'
  · subst hn
    simp only [keptLines, splitChar_append_sep, List.map_append, List.filter_append,
      List.map_cons, List.map_nil, pyStrip_nil, List.filter_cons, keepLine_nil]
    simp
  · obtain ⟨ls, l, h1, h2⟩ := splitChar_append_single hn t
    simp only [keptLines, h1, h2, List.map_append, List.map_cons, List.map_nil,
      pyStrip_append_ws hc]

theorem keptLines_lstrip (t : List Char) : keptLines (lstripBy pyWS t) = keptLines t := by
  induction t with
  | nil => rfl
  | cons c cs ih =>
    by_cases hc : pyWS c
    · rw [lstripBy, List.dropWhile_cons_of_pos hc, ← lstripBy, ih, keptLines_cons_ws hc]
    · simp only [lstripBy, List.dropWhile_cons, hc]
      simp

theorem keptLines_append_all_ws (x : List Char) :
    ∀ s : List Char, (∀ c ∈ s, pyWS c = true) → keptLines (x ++ s) = keptLines x := by
  intro s
  induction s using List.reverseRecOn with
  | nil => simp
  | append_singleton s' a ih =>
    intro hs
    rw [← List.append_assoc, keptLines_append_ws (hs a (by simp))]
    exact ih (fun c hc => hs c (by simp [hc]))

theorem keptLines_rstrip (t : List Char) : keptLines (rstripBy pyWS t) = keptLines t := by
  have hdecomp : t = rstripBy pyWS t ++ (t.reverse.takeWhile pyWS).reverse := by
    conv_lhs => rw [← List.reverse_reverse t, ← List.takeWhile_append_dropWhile pyWS t.reverse]
    rw [List.reverse_append]
    rfl
  conv_rhs => rw [hdecomp]
  exact (keptLines_append_all_ws _ _
    (fun c hc => List.mem_takeWhile_imp (List.mem_reverse.mp hc))).symm

theorem keptLines_pyStrip (t : List Char) : keptLines (pyStrip t) = keptLines t := by
  rw [pyStrip, pyStripBy, keptLines_rstrip, keptLines_lstrip]

theorem parseLines_eq (lines : List (List Char)) :
    parseLines lines =
      (((lines.map pyStrip).filter keepLine).map stripBullet).filter (fun l => !fencey l) := by
  induction lines with
  | nil => rfl
  | cons raw rest ih =>
    simp only [parseLines, List.map_cons, List.filter_cons]
    by_cases hk : keepLine (pyStrip raw)
    · simp only [hk, if_pos, List.map_cons, List.filter_cons]
      by_cases hf : fencey (stripBullet (pyStrip raw))
      · simp [hf, ih]
      · simp [hf, ih]
    · simp [hk, ih]

theorem parseSignaturesL_eq (t : List Char) : parseSignaturesL t = parseSpecAmendedL t := by
  by_cases h : pyStrip t = []
  · have hk : keptLines t = [] := by
      rw [← keptLines_pyStrip, h]
      rfl
    simp only [parseSignaturesL, if_pos h, parseSpecAmendedL]
    rw [show (((splitChar '\n' t).map pyStrip).filter keepLine) = keptLines t from rfl, hk]
    rfl
  · simp only [parseSignaturesL, if_neg h, parseSpecAmendedL, parseLines_eq]
    rw [show (((splitChar '\n' (pyStrip t)).map pyStrip).filter keepLine)
        = keptLines (pyStrip t) from rfl, keptLines_pyStrip]
    rfl

/-! ## Data model

The JSON structures produced by the pipeline (§3 of the spec). -/

/-- Per-file entry of a directory document. -/
structure FileRecord where
  file_path : String
  last_scanned : String
  signatures : List String
  summary : String
deriving DecidableEq

/-- Per-directory document. -/
structure DirRecord where
  directory_path : String
  last_updated : String
  files : List FileRecord
deriving DecidableEq

/-- Combined document produced by the recursive mode. -/
structure CombinedDoc where
  root_directory : String
  last_updated : String
  total_directories_processed : Nat
  directories : List DirRecord
deriving DecidableEq

/-- A document handed to the atomic writer during a scan. -/
inductive OutDoc where
  | dir (d : DirRecord)
  | comb (c : CombinedDoc)
deriving DecidableEq

/-- Write requests reaching the atomic writer, in order: target path
paired with the document. -/
abbrev Trace := List (String × OutDoc)

/-- Decidable equality for `Except` results, so that concrete runs of
the models can be checked by evaluation. -/
instance {e a : Type} [DecidableEq e] [DecidableEq a] : DecidableEq (Except e a) := fun x y =>
  match x, y with
  | .ok v, .ok w =>
    if h : v = w then .isTrue (by rw [h]) else .isFalse (fun hc => h (Except.ok.inj hc))
  | .error v, .error w =>
    if h : v = w then .isTrue (by rw [h]) else .isFalse (fun hc => h (Except.error.inj hc))
  | .ok _, .error _ => .isFalse (fun hc => Except.noConfusion hc)
  | .error _, .ok _ => .isFalse (fun hc => Except.noConfusion hc)

/-- Errors a scan can raise.  `notFound` models the source's
`FileNotFoundError` (the spec's `NotFoundError`), `notADirectory` the
source's `ValueError` on a non-directory path (the spec's
`NotADirectoryError`), and `collab` a collaborator exception
(extraction or summarization) re-raised unchanged by the fail-fast
policy, carrying the original cause. -/
inductive ScanErr where
  | notFound (path : String)
  | notADirectory (path : String)
  | collab (cause : String)
deriving DecidableEq

/-! ## Clock

`datetime.now()` is modelled as a counter-indexed stream of timestamp
strings: each call returns the stream value at the current counter and
advances the counter, so two calls at different moments read different
indices. -/

/-- Explicit clock state threaded through the computation. -/
structure Clock where
  fn : Nat → String
  k : Nat

/-- Model of reading `datetime.now().strftime(...)` once. -/
def Clock.now (c : Clock) : String × Clock :=
  (c.fn c.k, { c with k := c.k + 1 })

/-! ## Collaborators and filesystem -/

/-- Black-box collaborators of the core (spec §1): the signature
extractor, the optional LLM summarizer (taking the file path and the
raw signature text, the file-content read being folded into it), and
the Pygments-based language classifier. Each fallible collaborator
returns `Except` with the Python exception modelled as a string. -/
structure Env where
  get_signatures : String → Except String String
  provider : Option (String → String → Except String String)
  is_programming_file : String → Bool

/-- Read-only view of the filesystem used by a scan: existence and
kind tests, immediate-children listing, the `os.walk` enumeration
(pairs of visited directory and its file names), and the working
directory used by `os.path.abspath`. -/
structure FS where
  pathExists : String → Bool
  isdir : String → Bool
  isfile : String → Bool
  listdir : String → List String
  walk : String → List (String × List String)
  cwd : String

/-! ## The scan pipeline (`TLDRFileCreator`) -/

/-- Placeholder summary used when no LLM provider is configured. -/
def placeholderSummary : String :=
  "Summary of what the file does goes here.\nNeeds to be less than 500 characters."

/-- Model of `TLDRFileCreator._generate_file_summary`: placeholder when
no provider is configured; otherwise the provider's response content,
stripped. Failures (file read or LLM call) propagate. -/
def generate_file_summary (env : Env) (file_path sigs : String) : Except String String :=
  match env.provider with
  | none => .ok placeholderSummary
  | some f => (f file_path sigs).map (fun r => String.mk (pyStrip r.data))

/-- Per-file loop of `TLDRFileCreator._generate_json_content`: extract
signatures (failure re-raised), parse them, generate the summary
(failure re-raised), and build one record per file in order.  All the
records are stamped with the single timestamp `ts` taken by the caller. -/
def buildRecords (env : Env) (cwd ts : String) : List String → Except String (List FileRecord)
  | [] => .ok []
  | f :: fs => do
    let sigsText ← env.get_signatures f
    let sigs := parse_signatures sigsText
    let summary ← generate_file_summary env f sigsText
    let rest ← buildRecords env cwd ts fs
    .ok ({ file_path := abspath cwd f, last_scanned := ts, signatures := sigs,
           summary := summary } :: rest)

/-- Model of `TLDRFileCreator._generate_json_content`: reads the clock
once, builds all file records with that timestamp, and assembles the
directory document carrying the same timestamp. -/
def generate_json_content (env : Env) (cwd directory_path : String) (files : List String)
    (clock : Clock) : Except String DirRecord × Clock :=
  let (ts, c') := clock.now
  ((buildRecords env cwd ts files).map
     (fun frs => { directory_path := directory_path, last_updated := ts, files := frs }),
   c')

/-- Insert into a `≤`-sorted list of strings (lexicographic on the
character lists), keeping existing order among smaller elements. -/
def pyInsert (a : String) : List String → List String
  | [] => [a]
  | b :: l => if a.data ≤ b.data then a :: b :: l else b :: pyInsert a l

/-- Model of Python's `list.sort()` on a list of path strings:
ascending lexicographic insertion sort. -/
def pySort : List String → List String
  | [] => []
  | a :: l => pyInsert a (pySort l)

/-- File collection of `_process_single_directory`: immediate children
joined to the directory, kept when they are regular files recognized as
programming files. -/
def singleDirFiles (env : Env) (fs : FS) (dir : String) : List String :=
  ((fs.listdir dir).map (fun item => pjoin dir item)).filter
    (fun p => fs.isfile p && env.is_programming_file p)

/-- Model of `TLDRFileCreator._process_single_directory`: collect and
sort the eligible files, generate the directory document, and write it
atomically to `output_filename`.  A collaborator failure propagates
and nothing is written. -/
def process_single_directory (env : Env) (fs : FS) (dir output_filename : String)
    (clock : Clock) : Except ScanErr Unit × Trace × Clock :=
  match generate_json_content env fs.cwd (abspath fs.cwd dir)
      (pySort (singleDirFiles env fs dir)) clock with
  | (.error e, c') => (.error (.collab e), [], c')
  | (.ok d, c') => (.ok (), [(output_filename, .dir d)], c')

/-- Eligible files of one `os.walk` entry in recursive mode: the
entry's file names joined to its directory, filtered by the language
classifier. -/
def walkEntryFiles (env : Env) (root : String) (filenames : List String) : List String :=
  (filenames.map (fun fn => pjoin root fn)).filter env.is_programming_file

/-- Walk loop of `_process_directories_recursively`: visit the walk
entries in order, skip entries with no eligible files, and for the
rest generate a directory document on the sorted file list, counting
the processed directories; the first failure aborts the loop. -/
def walkDirs (env : Env) (fs : FS) :
    List (String × List String) → Clock → Except String (List DirRecord × Nat) × Clock
  | [], clock => (.ok ([], 0), clock)
  | (root, filenames) :: rest, clock =>
    let programming_files := walkEntryFiles env root filenames
    if programming_files.isEmpty then walkDirs env fs rest clock
    else
      match generate_json_content env fs.cwd (abspath fs.cwd root)
          (pySort programming_files) clock with
      | (.error e, c') => (.error e, c')
      | (.ok d, c') =>
        match walkDirs env fs rest c' with
        | (.error e, c'') => (.error e, c'')
        | (.ok (ds, n), c'') => (.ok (d :: ds, n + 1), c'')

/-- Output-filename resolution of `_process_directories_recursively`:
default `tldr_combined.json` under the root when no name was passed;
an explicit relative name is joined to the root; an absolute name is
used as given. -/
def outNameOf (root_directory : String) (base_output_filename : Option String) : String :=
  match base_output_filename with
  | none => pjoin root_directory "tldr_combined.json"
  | some b => if isAbs b then b else pjoin root_directory b

/-- Model of `TLDRFileCreator._process_directories_recursively`: walk
the tree, and when at least one directory was processed, resolve the
output filename, take one more clock reading, and write the combined
document. With no processed directories nothing is written. -/
def process_directories_recursively (env : Env) (fs : FS) (root_directory : String)
    (base_output_filename : Option String) (clock : Clock) :
    Except ScanErr Unit × Trace × Clock :=
  match walkDirs env fs (fs.walk root_directory) clock with
  | (.error e, c') => (.error (.collab e), [], c')
  | (.ok (all_directories, n), c') =>
    if all_directories.isEmpty then (.ok (), [], c')
    else
      let output_filename := outNameOf root_directory base_output_filename
      let (ts, c'') := c'.now
      (.ok (),
       [(output_filename,
         .comb { root_directory := abspath fs.cwd root_directory, last_updated := ts,
                 total_directories_processed := n, directories := all_directories })],
       c'')

/-- Model of `TLDRFileCreator.create_tldr_file`: existence and
directory checks first (`FileNotFoundError` and `ValueError` in the
source, the spec's `NotFoundError` and `NotADirectoryError`), then the
default output name `<dir>/tldr.json`, then dispatch on `recursive`. -/
def create_tldr_file (env : Env) (fs : FS) (directory_path : String)
    (output_filename : Option String) (recursive : Bool) (clock : Clock) :
    Except ScanErr Unit × Trace × Clock :=
  if !fs.pathExists directory_path then (.error (.notFound directory_path), [], clock)
  else if !fs.isdir directory_path then (.error (.notADirectory directory_path), [], clock)
  else
    let outName := output_filename.getD (pjoin directory_path "tldr.json")
    if recursive then process_directories_recursively env fs directory_path (some outName) clock
    else process_single_directory env fs directory_path outName clock

/-! ## The atomic writer (`TLDRFileCreator._write_json_atomically`)

Modelled at the level the claim needs: an association-list filesystem
mapping paths to file contents, and an outcome for every fallible step
of one invocation (the `json.dump`/flush/fsync block, the
Windows-only pre-rename delete of an existing target, the
`shutil.move`, and the best-effort temp cleanup in the handler). -/

/-- Error wrapper raised by the atomic writer (the source raises
`Exception("Failed to write JSON file atomically: ...")`, the spec's
`WriteError`), carrying the underlying cause. -/
inductive WriteErr where
  | writeError (cause : String)
deriving DecidableEq

/-- Path-to-contents view of the files the writer touches. Later
bindings shadow earlier ones. -/
structure WFS where
  files : List (String × String)
deriving DecidableEq

/-- Contents at a path, if the file exists. -/
def WFS.get (fs : WFS) (p : String) : Option String :=
  (fs.files.find? (fun e => e.1 == p)).map (fun e => e.2)

/-- Create or overwrite a file. -/
def WFS.set (fs : WFS) (p v : String) : WFS :=
  ⟨(p, v) :: fs.files⟩

/-- Delete a file. -/
def WFS.remove (fs : WFS) (p : String) : WFS :=
  ⟨fs.files.filter (fun e => !(e.1 == p))⟩

/-- Outcomes of one atomic-write invocation: the serialized document,
an optional exception cause for each fallible step, whether the
best-effort temp unlink in the handler succeeds, and the platform. -/
structure WriteRun where
  serialized : String
  writeFail : Option String
  unlinkFail : Option String
  moveFail : Option String
  cleanupOk : Bool
  isWindows : Bool

/-- Best-effort removal of the temporary file in the exception
handler (`try: os.unlink(temp_path) except: pass`). -/
def cleanupTemp (run : WriteRun) (fs : WFS) (temp : String) : WFS :=
  if run.cleanupOk then fs.remove temp else fs

/-- Model of `TLDRFileCreator._write_json_atomically`: create the temp
file, write the serialized document to it, on Windows delete an
existing target, move the temp file over the target; any step's
failure removes the temp file (best-effort) and raises the wrapped
error. -/
def write_json_atomically (run : WriteRun) (fs : WFS) (target temp : String) :
    Except WriteErr Unit × WFS :=
  let fs1 := fs.set temp ""
  match run.writeFail with
  | some cause => (.error (.writeError cause), cleanupTemp run fs1 temp)
  | none =>
    let fs2 := fs1.set temp run.serialized
    if run.isWindows && (fs2.get target).isSome then
      match run.unlinkFail with
      | some cause => (.error (.writeError cause), cleanupTemp run fs2 temp)
      | none =>
        let fs3 := fs2.remove target
        match run.moveFail with
        | some cause => (.error (.writeError cause), cleanupTemp run fs3 temp)
        | none => (.ok (), (fs3.remove temp).set target run.serialized)
    else
      match run.moveFail with
      | some cause => (.error (.writeError cause), cleanupTemp run fs2 temp)
      | none => (.ok (), (fs2.remove temp).set target run.serialized)

/-! ## The GitHub adapter (`github_adapter.GitHubAdapter`) -/

/-- Errors of the adapter: the source's `ValueError("Invalid GitHub
URL: ...")` (the spec's `InvalidReferenceError`) and the wrapped clone
failure (the spec's `RetrievalError`, covering transport errors and
"Git is not installed"). -/
inductive GHErr where
  | invalidReference (url : String)
  | retrieval (cause : String)
deriving DecidableEq

/-- Externally visible actions of one adapter invocation, in order:
the `git clone` attempt and the downstream TLDR creation on the
cloned tree (whose internals are covered by the scan model above). -/
inductive GHEffect where
  | clone (url dest : String)
  | tldr (path : String)
deriving DecidableEq

/-- Collaborators of the adapter: the result of `git clone url dest`,
and the name `tempfile.mkdtemp` returns for a given name prefix. -/
structure GHEnv where
  cloneResult : String → String → Except String Unit
  mkdtempName : String → String

/-- Locate the `://` separator: the characters after the first
occurrence, or `none` when there is none. -/
def schemeSplit : List Char → Option (List Char)
  | ':' :: '/' :: '/' :: rest => some rest
  | _ :: cs => schemeSplit cs
  | [] => none

/-- Model of the netloc component of `urllib.parse.urlparse`: the text
between `://` and the next `/` (query and fragment stripping is not
modelled: no claim involves them). Empty when the URL has no `://`. -/
def urlNetloc (url : String) : String :=
  match schemeSplit url.data with
  | none => ""
  | some rest => String.mk (rest.takeWhile (fun c => c ≠ '/'))

/-- Model of the path component of `urllib.parse.urlparse`: everything
from the first `/` after the netloc; the whole input when the URL has
no `://`. -/
def urlPath (url : String) : String :=
  match schemeSplit url.data with
  | none => url
  | some rest => String.mk (rest.dropWhile (fun c => c ≠ '/'))

/-- Model of Python `str.lower()`. -/
def pyLower (s : String) : String :=
  String.mk (s.data.map Char.toLower)

/-- Owner/repository segments of a parsed URL path, as computed by the
source: `parsed.path.strip('/').split('/')`. -/
def pathParts (url : String) : List (List Char) :=
  splitChar '/' (pyStripBy (fun c => c = '/') (urlPath url).data)

/-- Model of `GitHubAdapter._is_valid_github_url`: recognized host
(case-insensitive `github.com` or `www.github.com`) and at least two
path segments with the first two non-empty. -/
def is_valid_github_url (url : String) : Bool :=
  let netloc := pyLower (urlNetloc url)
  if !(netloc == "github.com" || netloc == "www.github.com") then false
  else
    let path_parts := pathParts url
    if path_parts.length < 2 then false
    else if (path_parts.getD 0 []).isEmpty || (path_parts.getD 1 []).isEmpty then false
    else true

/-- The classification the claim describes, stated with the spec's
words: the host matches the recognized repository-hosting pattern and
the path has an owner segment and a repository-name segment, both
non-empty. -/
def validRepoRefSpec (url : String) : Prop :=
  (pyLower (urlNetloc url) = "github.com" ∨ pyLower (urlNetloc url) = "www.github.com") ∧
  2 ≤ (pathParts url).length ∧
  (pathParts url).getD 0 [] ≠ [] ∧
  (pathParts url).getD 1 [] ≠ []

instance (url : String) : Decidable (validRepoRefSpec url) := by
  unfold validRepoRefSpec
  infer_instance

/-- Model of `GitHubAdapter._extract_repo_name`: second path segment,
with a `.git` suffix removed. -/
def extract_repo_name (url : String) : String :=
  let r := (pathParts url).getD 1 []
  if (".git".data).isSuffixOf r then String.mk (r.take (r.length - 4))
  else String.mk r

/-- Model of `GitHubAdapter.process_github_repo` up to its externally
visible actions: validate the URL (invalid references fail before
anything else), resolve the download path (a fresh temp directory or
`output_dir/repo_name`), attempt the clone (failures wrapped as
retrieval errors), then run the TLDR creation on the cloned tree and
return the TLDR file path. -/
def process_github_repo (genv : GHEnv) (url : String) (output_dir : Option String) :
    Except GHErr String × List GHEffect :=
  if !is_valid_github_url url then (.error (.invalidReference url), [])
  else
    let repo_name := extract_repo_name url
    let download_path :=
      match output_dir with
      | none => genv.mkdtempName ("github_" ++ repo_name ++ "_")
      | some d => pjoin d repo_name
    match genv.cloneResult url download_path with
    | .error cause => (.error (.retrieval cause), [.clone url download_path])
    | .ok _ =>
      (.ok (pjoin download_path (repo_name ++ ".tldr")),
       [.clone url download_path, .tldr download_path])

/-! ## Helper lemmas: paths -/

theorem data_ne_nil {a : String} (h : a ≠ "") : a.data ≠ [] :=
  fun hd => h (String.ext (by simp [hd]))

theorem isAbs_append_left (a b : String) (h : a ≠ "") : isAbs (a ++ b) = isAbs a := by
  have hd := data_ne_nil h
  unfold isAbs
  rw [String.data_append]
  cases hc : a.data with
  | nil => exact absurd hc hd
  | cons c cs => rfl

theorem pjoin_eq {a b : String} (hb : isAbs b = false) (ha : a ≠ "") :
    pjoin a b = a ++ "/" ++ b := by
  unfold pjoin
  rw [hb]
  simp [ha]

theorem abspath_of_abs {cwd p : String} (h : isAbs p = true) : abspath cwd p = p := by
  unfold abspath
  rw [h]
  rfl

theorem abspath_of_rel {cwd p : String} (h : isAbs p = false) : abspath cwd p = pjoin cwd p := by
  unfold abspath
  rw [h]
  rfl

theorem append_lt_append_left {p a b : String} (h : a.data < b.data) :
    (p ++ a).data < (p ++ b).data := by
  rw [String.data_append, String.data_append]
  exact List.Lex.append_left _ h p.data

theorem pjoin_empty {b : String} (hb : isAbs b = false) : pjoin "" b = b := by
  unfold pjoin
  rw [hb]
  simp

theorem abspath_lt_of_lt {cwd a b : String} (hab : isAbs a = isAbs b) (h : a.data < b.data) :
    (abspath cwd a).data < (abspath cwd b).data := by
  cases hA : isAbs a with
  | true =>
    rw [abspath_of_abs hA, abspath_of_abs (hab ▸ hA)]
    exact h
  | false =>
    have hB : isAbs b = false := hab ▸ hA
    rw [abspath_of_rel hA, abspath_of_rel hB]
    by_cases hc : cwd = ""
    · rw [hc, pjoin_empty hA, pjoin_empty hB]
      exact h
    · rw [pjoin_eq hA hc, pjoin_eq hB hc]
      exact append_lt_append_left h

theorem append_right_injective (p : String) : Function.Injective (fun b => p ++ b) := by
  intro a b h
  apply String.ext
  have := congrArg String.data h
  rw [String.data_append, String.data_append] at this
  exact List.append_cancel_left this

/-! ## Helper lemmas: sorting -/

theorem pyInsert_perm (a : String) (l : List String) : (pyInsert a l).Perm (a :: l) := by
  induction l with
  | nil => simp [pyInsert]
  | cons b t ih =>
    by_cases h : a.data ≤ b.data
    · simp [pyInsert, h]
    · simp only [pyInsert, if_neg h]
      exact (ih.cons b).trans (List.Perm.swap a b t)

theorem pySort_perm (l : List String) : (pySort l).Perm l := by
  induction l with
  | nil => simp [pySort]
  | cons a t ih => exact (pyInsert_perm a (pySort t)).trans (ih.cons a)

theorem pySort_mem {l : List String} {p : String} : p ∈ pySort l ↔ p ∈ l :=
  (pySort_perm l).mem_iff

theorem pyInsert_pairwise (a : String) (l : List String)
    (h : List.Pairwise (fun x y : String => x.data ≤ y.data) l) :
    List.Pairwise (fun x y : String => x.data ≤ y.data) (pyInsert a l) := by
  induction l with
  | nil => simp [pyInsert]
  | cons b t ih =>
    by_cases hab : a.data ≤ b.data
    · rw [pyInsert, if_pos hab]
      refine List.Pairwise.cons ?_ h
      intro y hy
      rcases hy with _ | hy
      · exact hab
      · next hy2 => exact le_trans hab (List.rel_of_pairwise_cons h hy2)
    · rw [pyInsert, if_neg hab]
      rcases h with _ | ⟨hb, ht⟩
      refine List.Pairwise.cons ?_ (ih ht)
      intro y hy
      rcases List.mem_cons.mp ((pyInsert_perm a t).mem_iff.mp hy) with rfl | hyt
      · exact le_of_not_le hab
      · exact hb y hyt

theorem pySort_pairwise (l : List String) :
    List.Pairwise (fun x y : String => x.data ≤ y.data) (pySort l) := by
  induction l with
  | nil => simp [pySort]
  | cons a t ih => exact pyInsert_pairwise a (pySort t) ih

theorem pySort_pairwise_lt {l : List String} (h : l.Nodup) :
    List.Pairwise (fun x y : String => x.data < y.data) (pySort l) := by
  have hs := pySort_pairwise l
  have hn : (pySort l).Nodup := ((pySort_perm l).nodup_iff).mpr h
  exact (hs.and hn).imp (fun hab => lt_of_le_of_ne hab.1 (fun hd => hab.2 (String.ext hd)))

/-! ## Helper lemmas: the record builder -/

/-- One of the per-file collaborator calls raises for `f`: signature
extraction fails, or it succeeds and summarization fails. -/
def fileFails (env : Env) (f : String) : Prop :=
  (∃ c, env.get_signatures f = .error c) ∨
  (∃ s c, env.get_signatures f = .ok s ∧ generate_file_summary env f s = .error c)

/-- The error `c` is the one originating at file `f`. -/
def originating (env : Env) (c : String) (f : String) : Prop :=
  env.get_signatures f = .error c ∨
  ∃ s, env.get_signatures f = .ok s ∧ generate_file_summary env f s = .error c

theorem buildRecords_cons_sig_error {env : Env} {cwd ts f : String} {c : String}
    (fs : List String) (h : env.get_signatures f = .error c) :
    buildRecords env cwd ts (f :: fs) = .error c := by
  simp [buildRecords, h, Bind.bind, Except.bind]

theorem buildRecords_cons_sum_error {env : Env} {cwd ts f s c : String} (fs : List String)
    (hs : env.get_signatures f = .ok s) (hm : generate_file_summary env f s = .error c) :
    buildRecords env cwd ts (f :: fs) = .error c := by
  simp [buildRecords, hs, hm, Bind.bind, Except.bind]

theorem buildRecords_cons_ok {env : Env} {cwd ts f s m : String} (fs : List String)
    (hs : env.get_signatures f = .ok s) (hm : generate_file_summary env f s = .ok m) :
    buildRecords env cwd ts (f :: fs) =
      (buildRecords env cwd ts fs).map
        (fun rest => { file_path := abspath cwd f, last_scanned := ts,
                       signatures := parse_signatures s, summary := m } :: rest) := by
  simp only [buildRecords, hs, hm, Bind.bind, Except.bind]
  cases buildRecords env cwd ts fs <;> rfl

theorem buildRecords_ok_shape {env : Env} {cwd ts : String} :
    ∀ {files : List String} {rs : List FileRecord},
      buildRecords env cwd ts files = .ok rs →
      rs.map (fun r => r.file_path) = files.map (abspath cwd) ∧
        ∀ r ∈ rs, r.last_scanned = ts := by
  intro files
  induction files with
  | nil =>
    intro rs h
    cases h
    simp
  | cons f fs ih =>
    intro rs h
    cases hg : env.get_signatures f with
    | error c => rw [buildRecords_cons_sig_error fs hg] at h; cases h
    | ok s =>
      cases hm : generate_file_summary env f s with
      | error c => rw [buildRecords_cons_sum_error fs hg hm] at h; cases h
      | ok m =>
        rw [buildRecords_cons_ok fs hg hm] at h
        cases hb : buildRecords env cwd ts fs with
        | error c => rw [hb] at h; cases h
        | ok rest =>
          rw [hb] at h
          obtain ⟨hmap, hts⟩ := ih hb
          cases h
          constructor
          · simp [hmap]
          · intro r hr
            rcases List.mem_cons.mp hr with rfl | hr2
            · rfl
            · exact hts r hr2

theorem buildRecords_error_origin {env : Env} {cwd ts : String} :
    ∀ {files : List String} {c : String},
      buildRecords env cwd ts files = .error c → ∃ f ∈ files, originating env c f := by
  intro files
  induction files with
  | nil => intro c h; cases h
  | cons f fs ih =>
    intro c h
    cases hg : env.get_signatures f with
    | error c₀ =>
      rw [buildRecords_cons_sig_error fs hg] at h
      cases h
      exact ⟨f, by simp, Or.inl hg⟩
    | ok s =>
      cases hm : generate_file_summary env f s with
      | error c₀ =>
        rw [buildRecords_cons_sum_error fs hg hm] at h
        cases h
        exact ⟨f, by simp, Or.inr ⟨s, hg, hm⟩⟩
      | ok m =>
        rw [buildRecords_cons_ok fs hg hm] at h
        cases hb : buildRecords env cwd ts fs with
        | error c₀ =>
          rw [hb] at h
          cases h
          obtain ⟨f₀, hf₀, ho⟩ := ih hb
          exact ⟨f₀, by simp [hf₀], ho⟩
        | ok rest => rw [hb] at h; cases h

theorem buildRecords_fails {env : Env} {cwd ts : String} :
    ∀ {files : List String}, (∃ f ∈ files, fileFails env f) →
      ∃ c, buildRecords env cwd ts files = .error c := by
  intro files
  induction files with
  | nil => rintro ⟨f, hf, _⟩; cases hf
  | cons f fs ih =>
    rintro ⟨f₀, hf₀, hfail⟩
    cases hg : env.get_signatures f with
    | error c => exact ⟨c, buildRecords_cons_sig_error fs hg⟩
    | ok s =>
      cases hm : generate_file_summary env f s with
      | error c => exact ⟨c, buildRecords_cons_sum_error fs hg hm⟩
      | ok m =>
        have hf₀fs : f₀ ∈ fs := by
          rcases List.mem_cons.mp hf₀ with rfl | h2
          · exfalso
            rcases hfail with ⟨c, hc⟩ | ⟨s₀, c, hs₀, hc⟩
            · rw [hg] at hc; cases hc
            · rw [hg] at hs₀
              cases hs₀
              rw [hm] at hc
              cases hc
          · exact h2
        obtain ⟨c, hc⟩ := ih ⟨f₀, hf₀fs, hfail⟩
        refine ⟨c, ?_⟩
        rw [buildRecords_cons_ok fs hg hm, hc]
        rfl

theorem buildRecords_ok_no_fail {env : Env} {cwd ts : String} {files : List String}
    {rs : List FileRecord} (h : buildRecords env cwd ts files = .ok rs) :
    ∀ f ∈ files, ¬ fileFails env f := by
  intro f hf hfail
  obtain ⟨c, hc⟩ := @buildRecords_fails env cwd ts files ⟨f, hf, hfail⟩
  rw [h] at hc
  cases hc

/-! ## Helper lemmas: `generate_json_content` -/

theorem generate_json_content_ok {env : Env} {cwd dp : String} {files : List String}
    {clock : Clock} {d : DirRecord} {cg : Clock}
    (h : generate_json_content env cwd dp files clock = (.ok d, cg)) :
    buildRecords env cwd (clock.fn clock.k) files = .ok d.files ∧
      d.directory_path = dp ∧ d.last_updated = clock.fn clock.k ∧
      cg = { clock with k := clock.k + 1 } := by
  unfold generate_json_content Clock.now at h
  have h1 := congrArg Prod.fst h
  have h2 := congrArg Prod.snd h
  simp only at h1 h2
  cases hb : buildRecords env cwd (clock.fn clock.k) files with
  | error e => rw [hb] at h1; cases h1
  | ok frs =>
    rw [hb] at h1
    simp only [Except.map] at h1
    cases h1
    exact ⟨rfl, rfl, rfl, h2.symm⟩

theorem generate_json_content_error {env : Env} {cwd dp : String} {files : List String}
    {clock : Clock} {e : String} {cg : Clock}
    (h : generate_json_content env cwd dp files clock = (.error e, cg)) :
    buildRecords env cwd (clock.fn clock.k) files = .error e ∧
      cg = { clock with k := clock.k + 1 } := by
  unfold generate_json_content Clock.now at h
  have h1 := congrArg Prod.fst h
  have h2 := congrArg Prod.snd h
  simp only at h1 h2
  cases hb : buildRecords env cwd (clock.fn clock.k) files with
  | error e₀ =>
    rw [hb] at h1
    simp only [Except.map] at h1
    cases h1
    exact ⟨rfl, h2.symm⟩
  | ok frs =>
    rw [hb] at h1
    simp only [Except.map] at h1
    cases h1

theorem generate_json_content_error_intro {env : Env} {cwd dp : String} {files : List String}
    {clock : Clock} {e : String}
    (h : buildRecords env cwd (clock.fn clock.k) files = .error e) :
    generate_json_content env cwd dp files clock = (.error e, { clock with k := clock.k + 1 }) := by
  cases hres : generate_json_content env cwd dp files clock with
  | mk r cg =>
    cases r with
    | error e' =>
      obtain ⟨hb, hcg⟩ := generate_json_content_error hres
      rw [h] at hb
      cases hb
      rw [hcg]
    | ok d =>
      obtain ⟨hb, -, -, -⟩ := generate_json_content_ok hres
      rw [h] at hb
      cases hb

/-! ## Helper lemmas: the walk loop -/

theorem walkDirs_nil (env : Env) (fs : FS) (clock : Clock) :
    walkDirs env fs [] clock = (.ok ([], 0), clock) := rfl

theorem walkDirs_cons_empty {env : Env} {fs : FS} {r : String} {fns : List String}
    (rest : List (String × List String)) (clock : Clock)
    (h : (walkEntryFiles env r fns).isEmpty = true) :
    walkDirs env fs ((r, fns) :: rest) clock = walkDirs env fs rest clock := by
  simp [walkDirs, h]

theorem walkDirs_cons_err {env : Env} {fs : FS} {r : String} {fns : List String}
    {e : String} {c₁ : Clock} (rest : List (String × List String)) (clock : Clock)
    (h : (walkEntryFiles env r fns).isEmpty = false)
    (hg : generate_json_content env fs.cwd (abspath fs.cwd r)
        (pySort (walkEntryFiles env r fns)) clock = (.error e, c₁)) :
    walkDirs env fs ((r, fns) :: rest) clock = (.error e, c₁) := by
  simp [walkDirs, h, hg]

theorem walkDirs_cons_ok_err {env : Env} {fs : FS} {r : String} {fns : List String}
    {d : DirRecord} {c₁ : Clock} {e : String} {c₂ : Clock}
    (rest : List (String × List String)) (clock : Clock)
    (h : (walkEntryFiles env r fns).isEmpty = false)
    (hg : generate_json_content env fs.cwd (abspath fs.cwd r)
        (pySort (walkEntryFiles env r fns)) clock = (.ok d, c₁))
    (hw : walkDirs env fs rest c₁ = (.error e, c₂)) :
    walkDirs env fs ((r, fns) :: rest) clock = (.error e, c₂) := by
  simp [walkDirs, h, hg, hw]

theorem walkDirs_cons_ok_ok {env : Env} {fs : FS} {r : String} {fns : List String}
    {d : DirRecord} {c₁ : Clock} {ds : List DirRecord} {n : Nat} {c₂ : Clock}
    (rest : List (String × List String)) (clock : Clock)
    (h : (walkEntryFiles env r fns).isEmpty = false)
    (hg : generate_json_content env fs.cwd (abspath fs.cwd r)
        (pySort (walkEntryFiles env r fns)) clock = (.ok d, c₁))
    (hw : walkDirs env fs rest c₁ = (.ok (ds, n), c₂)) :
    walkDirs env fs ((r, fns) :: rest) clock = (.ok (d :: ds, n + 1), c₂) := by
  simp [walkDirs, h, hg, hw]

theorem walkDirs_ok {env : Env} {fs : FS} :
    ∀ {entries : List (String × List String)} {clock : Clock} {ds : List DirRecord} {n : Nat}
      {c' : Clock}, walkDirs env fs entries clock = (.ok (ds, n), c') →
      n = ds.length ∧
      ds.map (fun d => d.directory_path)
        = (entries.filter (fun e => !(walkEntryFiles env e.1 e.2).isEmpty)).map
            (fun e => abspath fs.cwd e.1) ∧
      ∀ d ∈ ds, ∃ e ∈ entries, ∃ ck cg, (walkEntryFiles env e.1 e.2).isEmpty = false ∧
        generate_json_content env fs.cwd (abspath fs.cwd e.1)
          (pySort (walkEntryFiles env e.1 e.2)) ck = (.ok d, cg) := by
  intro entries
  induction entries with
  | nil =>
    intro clock ds n c' h
    rw [walkDirs_nil] at h
    rw [Prod.ext_iff] at h
    obtain ⟨h1, -⟩ := h
    rw [Except.ok.injEq, Prod.ext_iff] at h1
    obtain ⟨hds, hn⟩ := h1
    subst hds
    subst hn
    simp
  | cons e rest ih =>
    obtain ⟨r, fns⟩ := e
    intro clock ds n c' h
    by_cases hemp : (walkEntryFiles env r fns).isEmpty
    · rw [walkDirs_cons_empty rest clock hemp] at h
      obtain ⟨h1, h2, h3⟩ := ih h
      refine ⟨h1, ?_, ?_⟩
      · rw [List.filter_cons]
        simp only [hemp, Bool.not_true, Bool.false_eq_true, if_false]
        exact h2
      · intro d hd
        obtain ⟨e₀, he₀, hrest⟩ := h3 d hd
        exact ⟨e₀, by simp [he₀], hrest⟩
    · have hemp' : (walkEntryFiles env r fns).isEmpty = false := by simpa using hemp
      cases hg : generate_json_content env fs.cwd (abspath fs.cwd r)
          (pySort (walkEntryFiles env r fns)) clock with
      | mk gr c₁ =>
        cases gr with
        | error e₀ =>
          rw [walkDirs_cons_err rest clock hemp' hg] at h
          rw [Prod.ext_iff] at h
          obtain ⟨h1, -⟩ := h
          cases h1
        | ok d₀ =>
          cases hw : walkDirs env fs rest c₁ with
          | mk wr c₂ =>
            cases wr with
            | error e₀ =>
              rw [walkDirs_cons_ok_err rest clock hemp' hg hw] at h
              rw [Prod.ext_iff] at h
              obtain ⟨h1, -⟩ := h
              cases h1
            | ok p =>
              obtain ⟨ds₀, n₀⟩ := p
              rw [walkDirs_cons_ok_ok rest clock hemp' hg hw] at h
              rw [Prod.ext_iff] at h
              obtain ⟨h1, h2⟩ := h
              rw [Except.ok.injEq, Prod.ext_iff] at h1
              obtain ⟨hds, hn⟩ := h1
              subst hds
              subst hn
              obtain ⟨ih1, ih2, ih3⟩ := ih hw
              refine ⟨by simp [ih1], ?_, ?_⟩
              · rw [List.filter_cons]
                simp only [hemp', Bool.not_false, if_true]
                rw [List.map_cons, List.map_cons, ih2,
                  (generate_json_content_ok hg).2.1]
              · intro d hd
                rcases List.mem_cons.mp hd with rfl | hd₂
                · exact ⟨(r, fns), by simp, clock, c₁, hemp', hg⟩
                · obtain ⟨e₀, he₀, hrest⟩ := ih3 d hd₂
                  exact ⟨e₀, by simp [he₀], hrest⟩

theorem walkDirs_fails {env : Env} {fs : FS} :
    ∀ {entries : List (String × List String)} {clock : Clock},
      (∃ f ∈ entries.flatMap (fun e => walkEntryFiles env e.1 e.2), fileFails env f) →
      ∃ c c', walkDirs env fs entries clock = (.error c, c') ∧
        ∃ f ∈ entries.flatMap (fun e => walkEntryFiles env e.1 e.2), originating env c f := by
  intro entries
  induction entries with
  | nil =>
    rintro clock ⟨f, hf, -⟩
    simp at hf
  | cons e rest ih =>
    obtain ⟨r, fns⟩ := e
    rintro clock ⟨f, hf, hfail⟩
    rw [List.flatMap_cons, List.mem_append] at hf
    by_cases hemp : (walkEntryFiles env r fns).isEmpty
    · have hf' : f ∈ rest.flatMap (fun e => walkEntryFiles env e.1 e.2) := by
        rcases hf with h1 | h2
        · rw [List.isEmpty_iff] at hemp
          rw [hemp] at h1
          cases h1
        · exact h2
      obtain ⟨c, c', hw, f₀, hf₀, ho⟩ := ih ⟨f, hf', hfail⟩
      refine ⟨c, c', ?_, f₀, ?_, ho⟩
      · rw [walkDirs_cons_empty rest clock hemp]
        exact hw
      · rw [List.flatMap_cons, List.mem_append]
        exact Or.inr hf₀
    · have hemp' : (walkEntryFiles env r fns).isEmpty = false := by simpa using hemp
      cases hg : generate_json_content env fs.cwd (abspath fs.cwd r)
          (pySort (walkEntryFiles env r fns)) clock with
      | mk gr c₁ =>
        cases gr with
        | error e₀ =>
          obtain ⟨f₀, hf₀, ho⟩ := buildRecords_error_origin (generate_json_content_error hg).1
          refine ⟨e₀, c₁, walkDirs_cons_err rest clock hemp' hg, f₀, ?_, ho⟩
          rw [List.flatMap_cons, List.mem_append]
          exact Or.inl (pySort_mem.mp hf₀)
        | ok d₀ =>
          have hnof : ∀ f' ∈ walkEntryFiles env r fns, ¬ fileFails env f' := fun f' hf' =>
            buildRecords_ok_no_fail (generate_json_content_ok hg).1 f' (pySort_mem.mpr hf')
          have hfrest : f ∈ rest.flatMap (fun e => walkEntryFiles env e.1 e.2) := by
            rcases hf with h1 | h2
            · exact absurd hfail (hnof f h1)
            · exact h2
          obtain ⟨c, c₂, hw, f₀, hf₀, ho⟩ := @ih c₁ ⟨f, hfrest, hfail⟩
          refine ⟨c, c₂, walkDirs_cons_ok_err rest clock hemp' hg hw, f₀, ?_, ho⟩
          rw [List.flatMap_cons, List.mem_append]
          exact Or.inr hf₀

/-! ## Helper lemmas: the scan drivers -/

/-- All files a scan processes: the sorted-before-use eligible files of
the scanned directory (non-recursive) or of every walked directory
(recursive). -/
def scanEligibleFiles (env : Env) (fs : FS) (dir : String) (recursive : Bool) : List String :=
  if recursive then (fs.walk dir).flatMap (fun e => walkEntryFiles env e.1 e.2)
  else singleDirFiles env fs dir

/-- Every DirectoryRecord present in a write trace, directly or inside
a combined document. -/
def recordsOf (tr : Trace) : List DirRecord :=
  tr.flatMap (fun e =>
    match e.2 with
    | .dir d => [d]
    | .comb c => c.directories)

/-- The directory listings a scan consults: one `os.listdir` result in
non-recursive mode, the `os.walk` entries in recursive mode. -/
def scanListings (fs : FS) (dir : String) (recursive : Bool) : List (String × List String) :=
  if recursive then fs.walk dir else [(dir, fs.listdir dir)]

/-- Lexicographic strict order on path strings (on the character lists). -/
def strLt (a b : String) : Prop :=
  a.data < b.data

theorem process_single_err {env : Env} {fs : FS} {dir : String} {e : String} {c₁ : Clock}
    (out : String) (clock : Clock)
    (hg : generate_json_content env fs.cwd (abspath fs.cwd dir)
        (pySort (singleDirFiles env fs dir)) clock = (.error e, c₁)) :
    process_single_directory env fs dir out clock = (.error (.collab e), [], c₁) := by
  simp [process_single_directory, hg]

theorem process_single_ok {env : Env} {fs : FS} {dir : String} {d : DirRecord} {c₁ : Clock}
    (out : String) (clock : Clock)
    (hg : generate_json_content env fs.cwd (abspath fs.cwd dir)
        (pySort (singleDirFiles env fs dir)) clock = (.ok d, c₁)) :
    process_single_directory env fs dir out clock = (.ok (), [(out, .dir d)], c₁) := by
  simp [process_single_directory, hg]

theorem process_rec_err {env : Env} {fs : FS} {root : String} {e : String} {c₁ : Clock}
    (baseOut : Option String) (clock : Clock)
    (hw : walkDirs env fs (fs.walk root) clock = (.error e, c₁)) :
    process_directories_recursively env fs root baseOut clock = (.error (.collab e), [], c₁) := by
  simp [process_directories_recursively, hw]

theorem process_rec_empty {env : Env} {fs : FS} {root : String} {ds : List DirRecord} {n : Nat}
    {c₁ : Clock} (baseOut : Option String) (clock : Clock)
    (hw : walkDirs env fs (fs.walk root) clock = (.ok (ds, n), c₁))
    (hds : ds.isEmpty = true) :
    process_directories_recursively env fs root baseOut clock = (.ok (), [], c₁) := by
  simp [process_directories_recursively, hw, hds]

theorem process_rec_write {env : Env} {fs : FS} {root : String} {ds : List DirRecord} {n : Nat}
    {c₁ : Clock} (baseOut : Option String) (clock : Clock)
    (hw : walkDirs env fs (fs.walk root) clock = (.ok (ds, n), c₁))
    (hds : ds.isEmpty = false) :
    process_directories_recursively env fs root baseOut clock =
      (.ok (),
       [(outNameOf root baseOut,
         .comb { root_directory := abspath fs.cwd root, last_updated := c₁.fn c₁.k,
                 total_directories_processed := n, directories := ds })],
       { c₁ with k := c₁.k + 1 }) := by
  simp [process_directories_recursively, hw, hds, Clock.now]

theorem create_checks_pass {env : Env} {fs : FS} {dir : String} (outOpt : Option String)
    (recursive : Bool) (clock : Clock)
    (hex : fs.pathExists dir = true) (hdir : fs.isdir dir = true) :
    create_tldr_file env fs dir outOpt recursive clock =
      if recursive then
        process_directories_recursively env fs dir
          (some (outOpt.getD (pjoin dir "tldr.json"))) clock
      else process_single_directory env fs dir (outOpt.getD (pjoin dir "tldr.json")) clock := by
  simp [create_tldr_file, hex, hdir]

/-- Sorted strictness transfers from the eligible-file list to the
file records: the listing is duplicate-free, its names are relative,
so the joined paths are distinct, sorting makes them strictly
increasing, and prefixing the working directory preserves the order. -/
theorem chain_of_generate {env : Env} {cwd dir : String} {names : List String}
    {pred : String → Bool} {dp : String} {clock : Clock} {d : DirRecord} {cg : Clock}
    (hnd : names.Nodup) (hnabs : ∀ nm ∈ names, isAbs nm = false) (hdir : dir ≠ "")
    (hg : generate_json_content env cwd dp
        (pySort ((names.map (fun nm => pjoin dir nm)).filter pred)) clock = (.ok d, cg)) :
    List.Chain' (fun a b => strLt a.file_path b.file_path) d.files := by
  set files := (names.map (fun nm => pjoin dir nm)).filter pred with hfiles
  have hmapnd : (names.map (fun nm => pjoin dir nm)).Nodup := by
    refine List.Nodup.map_on ?_ hnd
    intro x hx y hy hxy
    rw [pjoin_eq (hnabs x hx) hdir, pjoin_eq (hnabs y hy) hdir] at hxy
    exact append_right_injective (dir ++ "/") hxy
  have hfnd : files.Nodup := hmapnd.filter _
  have habs : ∀ p ∈ files, isAbs p = isAbs dir := by
    intro p hp
    have hp2 := List.mem_filter.mp hp
    obtain ⟨nm, hnm, rfl⟩ := List.mem_map.mp hp2.1
    rw [pjoin_eq (hnabs nm hnm) hdir, String.append_assoc]
    exact isAbs_append_left dir ("/" ++ nm) hdir
  have hpw : List.Pairwise (fun x y : String => x.data < y.data) (pySort files) :=
    pySort_pairwise_lt hfnd
  have hpw2 : List.Pairwise (fun x y : String => strLt (abspath cwd x) (abspath cwd y))
      (pySort files) := by
    refine hpw.imp_of_mem ?_
    intro a b ha hb hlt
    exact abspath_lt_of_lt
      (by rw [habs a (pySort_mem.mp ha), habs b (pySort_mem.mp hb)]) hlt
  obtain ⟨hbr, -, -, -⟩ := generate_json_content_ok hg
  obtain ⟨hmap, -⟩ := buildRecords_ok_shape hbr
  have hps : List.Pairwise strLt (d.files.map (fun r => r.file_path)) := by
    rw [hmap]
    exact List.pairwise_map.mpr hpw2
  exact (List.pairwise_map.mp hps).chain'

theorem create_not_found {env : Env} {fs : FS} {dir : String} (outOpt : Option String)
    (recursive : Bool) (clock : Clock) (h : fs.pathExists dir = false) :
    create_tldr_file env fs dir outOpt recursive clock = (.error (.notFound dir), [], clock) := by
  simp [create_tldr_file, h]

theorem create_not_dir {env : Env} {fs : FS} {dir : String} (outOpt : Option String)
    (recursive : Bool) (clock : Clock) (hex : fs.pathExists dir = true)
    (h : fs.isdir dir = false) :
    create_tldr_file env fs dir outOpt recursive clock =
      (.error (.notADirectory dir), [], clock) := by
  simp [create_tldr_file, hex, h]

theorem walkDirs_all_empty {env : Env} {fs : FS} :
    ∀ (entries : List (String × List String)) (clock : Clock),
      (∀ e ∈ entries, walkEntryFiles env e.1 e.2 = []) →
      walkDirs env fs entries clock = (.ok ([], 0), clock) := by
  intro entries
  induction entries with
  | nil => intro clock _; rfl
  | cons e rest ih =>
    intro clock h
    obtain ⟨r, fns⟩ := e
    have he : walkEntryFiles env r fns = [] := h (r, fns) (by simp)
    rw [walkDirs_cons_empty rest clock (by rw [he]; rfl)]
    exact ih clock (fun e he' => h e (by simp [he']))

/-! ## Claim theorems -/

/-- C7: `create_tldr_file` fails with the not-found error when the
path does not exist, and with the not-a-directory error when it exists
but is not a directory; in both cases nothing is written and the
clock is never read (no record is built). -/
theorem C7_path_checks (env : Env) (fs : FS) (dir : String) (outOpt : Option String)
    (recursive : Bool) (clock : Clock) :
    (fs.pathExists dir = false →
      create_tldr_file env fs dir outOpt recursive clock =
        (.error (.notFound dir), [], clock)) ∧
    (fs.pathExists dir = true → fs.isdir dir = false →
      create_tldr_file env fs dir outOpt recursive clock =
        (.error (.notADirectory dir), [], clock)) :=
  ⟨fun h => create_not_found outOpt recursive clock h,
   fun hex h => create_not_dir outOpt recursive clock hex h⟩

def c7Env : Env :=
  { get_signatures := fun _ => .ok "sig", provider := none,
    is_programming_file := fun _ => true }

def c7FS : FS :=
  { pathExists := fun p => p == "present", isdir := fun _ => false,
    isfile := fun _ => true, listdir := fun _ => [], walk := fun _ => [], cwd := "/c" }

theorem C7_path_checks_witness :
    create_tldr_file c7Env c7FS "missing" none false ⟨fun _ => "T", 0⟩
        = (.error (.notFound "missing"), [], ⟨fun _ => "T", 0⟩) ∧
      create_tldr_file c7Env c7FS "present" none false ⟨fun _ => "T", 0⟩
        = (.error (.notADirectory "present"), [], ⟨fun _ => "T", 0⟩) :=
  ⟨(C7_path_checks c7Env c7FS "missing" none false ⟨fun _ => "T", 0⟩).1 (by decide),
   (C7_path_checks c7Env c7FS "present" none false ⟨fun _ => "T", 0⟩).2 (by decide) (by decide)⟩

/-- C10: a recursive aggregation over a tree in which no walked
directory has any eligible file writes nothing at all: the run
succeeds, the write trace is empty (any pre-existing file at the
target output path is untouched), and the clock is never read. -/
theorem C10_empty_tree_no_write (env : Env) (fs : FS) (root : String)
    (baseOut : Option String) (clock : Clock)
    (h : ∀ e ∈ fs.walk root, walkEntryFiles env e.1 e.2 = []) :
    process_directories_recursively env fs root baseOut clock = (.ok (), [], clock) :=
  process_rec_empty baseOut clock (walkDirs_all_empty (fs.walk root) clock h) rfl

def c10Env : Env :=
  { get_signatures := fun _ => .ok "sig", provider := none,
    is_programming_file := fun _ => false }

def c10FS : FS :=
  { pathExists := fun _ => true, isdir := fun _ => true, isfile := fun _ => true,
    listdir := fun _ => ["a.md"], walk := fun _ => [("d", ["a.md"]), ("d/s", ["b.txt"])],
    cwd := "/c" }

theorem C10_empty_tree_no_write_witness :
    process_directories_recursively c10Env c10FS "d" (some "d/tldr.json") ⟨fun _ => "T", 0⟩
      = (.ok (), [], ⟨fun _ => "T", 0⟩) :=
  C10_empty_tree_no_write c10Env c10FS "d" (some "d/tldr.json") ⟨fun _ => "T", 0⟩ (by decide)

/-- C1: for every directory scan (non-recursive or recursive) whose
path checks pass, if signature extraction or summary generation raises
for any eligible file of the scan, the whole scan fails with a
collaborator error that originates at one of the eligible files, and
the write trace is empty: no output file is produced or modified, and
there is no per-file skip or partial-success record. -/
theorem C1_fail_fast (env : Env) (fs : FS) (dir : String) (outOpt : Option String)
    (recursive : Bool) (clock : Clock)
    (hex : fs.pathExists dir = true) (hdir : fs.isdir dir = true)
    (hfail : ∃ f ∈ scanEligibleFiles env fs dir recursive, fileFails env f) :
    ∃ c c', create_tldr_file env fs dir outOpt recursive clock = (.error (.collab c), [], c') ∧
      ∃ f ∈ scanEligibleFiles env fs dir recursive, originating env c f := by
  rw [create_checks_pass outOpt recursive clock hex hdir]
  cases recursive with
  | true =>
    rw [if_pos rfl]
    unfold scanEligibleFiles at hfail ⊢
    rw [if_pos rfl] at hfail ⊢
    obtain ⟨c, c', hw, horig⟩ := walkDirs_fails hfail
    exact ⟨c, c', process_rec_err _ clock hw, horig⟩
  | false =>
    rw [if_neg (by simp)]
    unfold scanEligibleFiles at hfail ⊢
    rw [if_neg (by simp)] at hfail ⊢
    obtain ⟨f, hf, hfl⟩ := hfail
    obtain ⟨c, hc⟩ := @buildRecords_fails env fs.cwd (clock.fn clock.k)
      (pySort (singleDirFiles env fs dir)) ⟨f, pySort_mem.mpr hf, hfl⟩
    obtain ⟨f₀, hf₀, ho⟩ := buildRecords_error_origin hc
    exact ⟨c, _, process_single_err _ clock (generate_json_content_error_intro hc),
      f₀, pySort_mem.mp hf₀, ho⟩

def c1Env : Env :=
  { get_signatures := fun _ => .error "boom", provider := none,
    is_programming_file := fun _ => true }

def c1FS : FS :=
  { pathExists := fun p => p == "d", isdir := fun p => p == "d",
    isfile := fun _ => true, listdir := fun _ => ["a.py"],
    walk := fun _ => [("d", ["a.py"])], cwd := "/c" }

theorem C1_fail_fast_witness :
    ∃ c c', create_tldr_file c1Env c1FS "d" none false ⟨fun _ => "T", 0⟩
        = (.error (.collab c), [], c') ∧
      ∃ f ∈ scanEligibleFiles c1Env c1FS "d" false, originating c1Env c f :=
  C1_fail_fast c1Env c1FS "d" none false ⟨fun _ => "T", 0⟩ (by decide) (by decide)
    ⟨"d/a.py", by decide, Or.inl ⟨"boom", rfl⟩⟩

/-- C2: in every combined document a recursive aggregation writes, the
count field equals the number of directory records, and the directory
records are exactly (same order, same paths) the walked directories
with at least one eligible file among their immediate children;
directories with zero eligible files contribute neither an entry nor
an error. -/
theorem C2_contribution_iff (env : Env) (fs : FS) (root : String) (baseOut : Option String)
    (clock : Clock) :
    ∀ p doc,
      (p, OutDoc.comb doc) ∈ (process_directories_recursively env fs root baseOut clock).2.1 →
      doc.total_directories_processed = doc.directories.length ∧
      doc.directories.map (fun d => d.directory_path)
        = ((fs.walk root).filter (fun e => !(walkEntryFiles env e.1 e.2).isEmpty)).map
            (fun e => abspath fs.cwd e.1) := by
  intro p doc hmem
  cases hw : walkDirs env fs (fs.walk root) clock with
  | mk wr c₁ =>
    cases wr with
    | error e =>
      rw [process_rec_err baseOut clock hw] at hmem
      simp at hmem
    | ok pr =>
      obtain ⟨ds, n⟩ := pr
      by_cases hds : ds.isEmpty
      · rw [process_rec_empty baseOut clock hw hds] at hmem
        simp at hmem
      · have hds' : ds.isEmpty = false := by simpa using hds
        rw [process_rec_write baseOut clock hw hds'] at hmem
        simp only [List.mem_singleton, Prod.mk.injEq] at hmem
        obtain ⟨-, hdoc⟩ := hmem
        have hdoc2 := OutDoc.comb.inj hdoc
        obtain ⟨h1, h2, -⟩ := walkDirs_ok hw
        rw [hdoc2]
        exact ⟨by simpa using h1, by simpa using h2⟩

def c2Env : Env :=
  { get_signatures := fun _ => .ok "sig", provider := none,
    is_programming_file := fun p => p == "d/a.py" || p == "d/s/b.py" }

def c2FS : FS :=
  { pathExists := fun _ => true, isdir := fun _ => true, isfile := fun _ => true,
    listdir := fun _ => [],
    walk := fun _ => [("d", ["a.py"]), ("d/e", ["r.md"]), ("d/s", ["b.py"])], cwd := "/c" }

def c2Doc : CombinedDoc :=
  { root_directory := "/c/d", last_updated := "T", total_directories_processed := 2,
    directories :=
      [ { directory_path := "/c/d", last_updated := "T",
          files := [{ file_path := "/c/d/a.py", last_scanned := "T",
                      signatures := ["sig"], summary := placeholderSummary }] },
        { directory_path := "/c/d/s", last_updated := "T",
          files := [{ file_path := "/c/d/s/b.py", last_scanned := "T",
                      signatures := ["sig"], summary := placeholderSummary }] } ] }

theorem C2_contribution_iff_witness :
    c2Doc.total_directories_processed = c2Doc.directories.length ∧
      c2Doc.directories.map (fun d => d.directory_path)
        = ((c2FS.walk "d").filter
            (fun e => !(walkEntryFiles c2Env e.1 e.2).isEmpty)).map
            (fun e => abspath c2FS.cwd e.1) :=
  C2_contribution_iff c2Env c2FS "d" none ⟨fun _ => "T", 0⟩
    "d/tldr_combined.json" c2Doc (by decide)

/-- C4: every DirectoryRecord a scan writes (directly in non-recursive
mode or inside the combined document in recursive mode) has its
`files` strictly sorted by `file_path` in ascending lexicographic
string order, provided the consulted listings are duplicate-free
relative names of non-root directories (what `os.listdir` and
`os.walk` return). -/
theorem C4_sort_invariant (env : Env) (fs : FS) (dir : String) (outOpt : Option String)
    (recursive : Bool) (clock : Clock)
    (hls : ∀ e ∈ scanListings fs dir recursive,
      e.1 ≠ "" ∧ e.2.Nodup ∧ ∀ nm ∈ e.2, isAbs nm = false) :
    ∀ d ∈ recordsOf (create_tldr_file env fs dir outOpt recursive clock).2.1,
      List.Chain' (fun a b => strLt a.file_path b.file_path) d.files := by
  intro d hd
  by_cases hex : fs.pathExists dir
  case neg =>
    rw [create_not_found outOpt recursive clock (by simpa using hex)] at hd
    simp [recordsOf] at hd
  case pos =>
    by_cases hdir : fs.isdir dir
    case neg =>
      rw [create_not_dir outOpt recursive clock hex (by simpa using hdir)] at hd
      simp [recordsOf] at hd
    case pos =>
      rw [create_checks_pass outOpt recursive clock hex hdir] at hd
      cases recursive with
      | false =>
        rw [if_neg (by simp)] at hd
        obtain ⟨hroot, hnd, hnabs⟩ :=
          hls (dir, fs.listdir dir) (by unfold scanListings; rw [if_neg (by simp)]; simp)
        cases hg : generate_json_content env fs.cwd (abspath fs.cwd dir)
            (pySort (singleDirFiles env fs dir)) clock with
        | mk gr c₁ =>
          cases gr with
          | error e =>
            rw [process_single_err (outOpt.getD (pjoin dir "tldr.json")) clock hg] at hd
            simp [recordsOf] at hd
          | ok d₀ =>
            rw [process_single_ok (outOpt.getD (pjoin dir "tldr.json")) clock hg] at hd
            have hdd : d = d₀ := by simpa [recordsOf] using hd
            subst hdd
            have hg' : generate_json_content env fs.cwd (abspath fs.cwd dir)
                (pySort (((fs.listdir dir).map (fun nm => pjoin dir nm)).filter
                  (fun p => fs.isfile p && env.is_programming_file p))) clock
                = (.ok d, c₁) := hg
            exact chain_of_generate hnd hnabs hroot hg'
      | true =>
        rw [if_pos rfl] at hd
        cases hw : walkDirs env fs (fs.walk dir) clock with
        | mk wr c₁ =>
          cases wr with
          | error e =>
            rw [process_rec_err _ clock hw] at hd
            simp [recordsOf] at hd
          | ok pr =>
            obtain ⟨ds, n⟩ := pr
            by_cases hds : ds.isEmpty
            · rw [process_rec_empty _ clock hw hds] at hd
              simp [recordsOf] at hd
            · have hds' : ds.isEmpty = false := by simpa using hds
              rw [process_rec_write _ clock hw hds'] at hd
              have hd2 : d ∈ ds := by simpa [recordsOf] using hd
              obtain ⟨-, -, h3⟩ := walkDirs_ok hw
              obtain ⟨e, he, ck, cg, -, hg⟩ := h3 d hd2
              obtain ⟨hroot, hnd, hnabs⟩ :=
                hls e (by unfold scanListings; rw [if_pos rfl]; exact he)
              have hg' : generate_json_content env fs.cwd (abspath fs.cwd e.1)
                  (pySort ((e.2.map (fun nm => pjoin e.1 nm)).filter
                    env.is_programming_file)) ck = (.ok d, cg) := hg
              exact chain_of_generate hnd hnabs hroot hg'

def c4Env : Env :=
  { get_signatures := fun _ => .ok "sig", provider := none,
    is_programming_file := fun _ => true }

def c4FS : FS :=
  { pathExists := fun p => p == "d", isdir := fun p => p == "d", isfile := fun _ => true,
    listdir := fun _ => ["b.py", "a.py"], walk := fun _ => [("d", ["b.py", "a.py"])],
    cwd := "/c" }

def c4Rec : DirRecord :=
  { directory_path := "/c/d", last_updated := "T",
    files :=
      [ { file_path := "/c/d/a.py", last_scanned := "T", signatures := ["sig"],
          summary := placeholderSummary },
        { file_path := "/c/d/b.py", last_scanned := "T", signatures := ["sig"],
          summary := placeholderSummary } ] }

theorem C4_sort_invariant_witness :
    List.Chain' (fun a b => strLt a.file_path b.file_path) c4Rec.files :=
  C4_sort_invariant c4Env c4FS "d" none false ⟨fun _ => "T", 0⟩ (by decide) c4Rec (by decide)

/-- C5 as stated fails: the source drops every line that starts or
ends with a code-fence delimiter after bullet stripping, not only
lines that are pure fence delimiters.  On the one-line input
consisting of a fence delimiter followed by a language tag, the code
returns nothing while the claim's pipeline keeps the line. -/
theorem C5_parse_counterexample :
    parse_signatures "```python" = [] ∧
      parseSpecClaimed "```python" = ["```python"] ∧
      parse_signatures "```python" ≠ parseSpecClaimed "```python" :=
  ⟨by decide, by decide, by decide⟩

/-- C5 amended: for every raw signature text, the parsed list is
obtained by splitting on line breaks, trimming each line, dropping
blank lines, dropping lines beginning with `#` or `//`, stripping one
leading `- ` or `* ` bullet marker, and dropping lines that START OR
END with a code-fence delimiter — preserving order and duplicates
(the two sides are equal as lists). -/
theorem C5_parse_signatures_amended (s : String) :
    parse_signatures s = parseSpecAmended s := by
  unfold parse_signatures parseSpecAmended
  rw [parseSignaturesL_eq]

/-- Formalization of C6 as the claim states it: were each file
record's timestamp taken at the moment that record is built and the
directory stamp taken after all of them, then under an injective clock
(distinct call moments give distinct timestamp strings) the file
records would carry pairwise distinct `last_scanned` values and
`last_updated` would differ from all of them. -/
def claimC6Statement : Prop :=
  ∀ (env : Env) (cwd dp : String) (files : List String) (clock : Clock) (d : DirRecord),
    (∀ i j, clock.fn i = clock.fn j → i = j) →
    (generate_json_content env cwd dp files clock).1 = .ok d →
    d.files.Pairwise (fun r s => r.last_scanned ≠ s.last_scanned) ∧
    d.last_updated ∉ d.files.map (fun r => r.last_scanned)

def c6Env : Env :=
  { get_signatures := fun _ => .ok "sig", provider := none,
    is_programming_file := fun _ => true }

def c6Rec : DirRecord :=
  { directory_path := "/d", last_updated := "",
    files :=
      [ { file_path := "/c/a", last_scanned := "", signatures := ["sig"],
          summary := placeholderSummary },
        { file_path := "/c/b", last_scanned := "", signatures := ["sig"],
          summary := placeholderSummary } ] }

/-- C6 counterexample: scanning two files with an injective clock, the
source assigns both records the same `last_scanned` (the single batch
timestamp, equal to `last_updated`), refuting per-record timestamps. -/
theorem C6_counterexample : ¬ claimC6Statement := by
  intro h
  have hinj : ∀ i j, (fun n => String.mk (List.replicate n 'a')) i
      = (fun n => String.mk (List.replicate n 'a')) j → i = j := by
    intro i j hij
    have hlen := congrArg (fun s => s.data.length) hij
    simpa using hlen
  obtain ⟨hpw, -⟩ := h c6Env "/c" "/d" ["a", "b"]
    ⟨fun n => String.mk (List.replicate n 'a'), 0⟩ c6Rec hinj (by decide)
  exact absurd hpw (by decide)

/-- C6 corrected: every file record of a directory carries the same
timestamp, equal to the directory record's `last_updated`, all taken
from the single clock reading made before any record is built; the
clock advances exactly once per directory. -/
theorem C6_single_timestamp (env : Env) (cwd dp : String) (files : List String)
    (clock : Clock) (d : DirRecord)
    (h : (generate_json_content env cwd dp files clock).1 = .ok d) :
    (∀ r ∈ d.files, r.last_scanned = d.last_updated) ∧
    d.last_updated = clock.fn clock.k ∧
    (generate_json_content env cwd dp files clock).2.k = clock.k + 1 := by
  cases hres : generate_json_content env cwd dp files clock with
  | mk gr cg =>
    rw [hres] at h
    simp only at h
    cases gr with
    | error e => cases h
    | ok d₀ =>
      obtain rfl : d₀ = d := Except.ok.inj h
      obtain ⟨hbr, -, hlu, hcg⟩ := generate_json_content_ok hres
      obtain ⟨-, hts⟩ := buildRecords_ok_shape hbr
      refine ⟨?_, hlu, ?_⟩
      · intro r hr
        rw [hts r hr, hlu]
      · simp [hcg]

/-! ## Helper lemmas: the writer filesystem -/

theorem WFS.get_set_ne (fs : WFS) {p q : String} (v : String) (h : q ≠ p) :
    (fs.set p v).get q = fs.get q := by
  unfold WFS.get WFS.set
  rw [List.find?_cons_of_neg]
  simp [Ne.symm h]

theorem find?_filter_out (l : List (String × String)) (p : String) :
    (l.filter (fun e => !(e.1 == p))).find? (fun e => e.1 == p) = none := by
  induction l with
  | nil => rfl
  | cons a l ih =>
    rw [List.filter_cons]
    by_cases h : a.1 == p
    · simp only [h, Bool.not_true, Bool.false_eq_true, if_false]
      exact ih
    · simp only [h, Bool.not_false, if_true]
      rw [List.find?_cons_of_neg _ (by simp_all)]
      exact ih

theorem find?_filter_ne (l : List (String × String)) (p q : String) (h : ¬ q = p) :
    (l.filter (fun e => !(e.1 == p))).find? (fun e => e.1 == q)
      = l.find? (fun e => e.1 == q) := by
  induction l with
  | nil => rfl
  | cons a l ih =>
    rw [List.filter_cons]
    by_cases hp : a.1 == p
    · have hq : (a.1 == q) = false := by
        rw [beq_iff_eq] at hp
        subst hp
        simpa using fun hc => h hc.symm
      simp only [hp, Bool.not_true, Bool.false_eq_true, if_false, ih, List.find?_cons, hq]
    · by_cases hq : (a.1 == q) = true
      · simp only [hp, Bool.not_false, if_true, List.find?_cons, hq]
      · have hq' : (a.1 == q) = false := by simpa using hq
        simp only [hp, Bool.not_false, if_true, List.find?_cons, hq']
        exact ih

theorem WFS.get_remove_self (fs : WFS) (p : String) : (fs.remove p).get p = none := by
  unfold WFS.get WFS.remove
  rw [find?_filter_out]
  rfl

theorem WFS.get_remove_ne (fs : WFS) {p q : String} (h : q ≠ p) :
    (fs.remove p).get q = fs.get q := by
  unfold WFS.get WFS.remove
  rw [find?_filter_ne _ _ _ h]

theorem cleanupTemp_get_ne (run : WriteRun) (fs : WFS) (temp : String) {q : String}
    (h : q ≠ temp) : (cleanupTemp run fs temp).get q = fs.get q := by
  unfold cleanupTemp
  by_cases hc : run.cleanupOk
  · rw [if_pos hc]
    exact WFS.get_remove_ne fs h
  · rw [if_neg hc]

theorem cleanupTemp_get_self (run : WriteRun) (fs : WFS) (temp : String)
    (h : run.cleanupOk = true) : (cleanupTemp run fs temp).get temp = none := by
  unfold cleanupTemp
  rw [if_pos h]
  exact WFS.get_remove_self fs temp

/-- C3 corrected/amended: whenever a step of one atomic-write
invocation fails — the write/flush/fsync block, the Windows-only
pre-rename delete of an existing target, or the rename — the function
fails with the wrapped write error carrying the underlying cause, and
the temporary file is gone whenever the best-effort cleanup succeeds;
on a non-Windows platform the target path's previous contents
additionally survive untouched.  The hypothesis enumerates which step
fails first, following the source's control flow. -/
theorem C3_atomic_write_failure (run : WriteRun) (fs : WFS) (target temp : String) (c : String)
    (htt : target ≠ temp)
    (hfail : run.writeFail = some c ∨
      (run.writeFail = none ∧ (run.isWindows && (fs.get target).isSome) = true ∧
        run.unlinkFail = some c) ∨
      (run.writeFail = none ∧ (run.isWindows && (fs.get target).isSome) = true ∧
        run.unlinkFail = none ∧ run.moveFail = some c) ∨
      (run.writeFail = none ∧ (run.isWindows && (fs.get target).isSome) = false ∧
        run.moveFail = some c)) :
    (write_json_atomically run fs target temp).1 = .error (.writeError c) ∧
    (run.cleanupOk = true → (write_json_atomically run fs target temp).2.get temp = none) ∧
    (run.isWindows = false →
      (write_json_atomically run fs target temp).2.get target = fs.get target) := by
  have hfs2 : ((fs.set temp "").set temp run.serialized).get target = fs.get target := by
    rw [WFS.get_set_ne _ _ htt, WFS.get_set_ne _ _ htt]
  rcases hfail with hwf | ⟨hwf, hcond, hunl⟩ | ⟨hwf, hcond, hunl, hmv⟩ | ⟨hwf, hcond, hmv⟩
  · unfold write_json_atomically
    rw [hwf]
    refine ⟨rfl, ?_, ?_⟩
    · intro hc
      exact cleanupTemp_get_self run _ temp hc
    · intro _
      rw [cleanupTemp_get_ne run _ temp htt]
      exact WFS.get_set_ne fs "" htt
  · unfold write_json_atomically
    rw [hwf]
    dsimp only
    rw [if_pos (show (run.isWindows
        && (((fs.set temp "").set temp run.serialized).get target).isSome) = true by
      rw [hfs2]; exact hcond), hunl]
    refine ⟨rfl, ?_, ?_⟩
    · intro hc
      exact cleanupTemp_get_self run _ temp hc
    · intro hw
      rw [hw] at hcond
      simp at hcond
  · unfold write_json_atomically
    rw [hwf]
    dsimp only
    rw [if_pos (show (run.isWindows
        && (((fs.set temp "").set temp run.serialized).get target).isSome) = true by
      rw [hfs2]; exact hcond), hunl, hmv]
    refine ⟨rfl, ?_, ?_⟩
    · intro hc
      exact cleanupTemp_get_self run _ temp hc
    · intro hw
      rw [hw] at hcond
      simp at hcond
  · unfold write_json_atomically
    rw [hwf]
    dsimp only
    rw [if_neg (show ¬ (run.isWindows
        && (((fs.set temp "").set temp run.serialized).get target).isSome) = true by
      rw [hfs2, hcond]; simp), hmv]
    refine ⟨rfl, ?_, ?_⟩
    · intro hc
      exact cleanupTemp_get_self run _ temp hc
    · intro _
      rw [cleanupTemp_get_ne run _ temp htt, WFS.get_set_ne _ _ htt]
      exact WFS.get_set_ne fs "" htt

def c3FS : WFS := ⟨[("out.json", "old")]⟩

def c3Run : WriteRun :=
  { serialized := "new", writeFail := none, unlinkFail := none,
    moveFail := some "disk full", cleanupOk := true, isWindows := true }

/-- C3 counterexample (Windows branch): the target held previous
contents, the rename failed after the pre-rename delete, the wrapped
write error is raised — but the target's previous contents are gone,
contradicting the claim's "left untouched" for every failure. -/
theorem C3_windows_counterexample :
    c3FS.get "out.json" = some "old" ∧
    (write_json_atomically c3Run c3FS "out.json" "tldr_tmp.json").1
      = .error (.writeError "disk full") ∧
    (write_json_atomically c3Run c3FS "out.json" "tldr_tmp.json").2.get "out.json" = none :=
  ⟨by decide, by decide, by decide⟩

def c3PosixRun : WriteRun :=
  { serialized := "new", writeFail := none, unlinkFail := none,
    moveFail := some "disk full", cleanupOk := true, isWindows := false }

def c3WinRun : WriteRun :=
  { serialized := "new", writeFail := none, unlinkFail := some "perm denied",
    moveFail := none, cleanupOk := true, isWindows := true }

theorem C3_atomic_write_failure_witness :
    ((write_json_atomically c3PosixRun c3FS "out.json" "tldr_tmp.json").1
        = .error (.writeError "disk full") ∧
      (c3PosixRun.cleanupOk = true →
        (write_json_atomically c3PosixRun c3FS "out.json" "tldr_tmp.json").2.get
          "tldr_tmp.json" = none) ∧
      (c3PosixRun.isWindows = false →
        (write_json_atomically c3PosixRun c3FS "out.json" "tldr_tmp.json").2.get "out.json"
          = c3FS.get "out.json")) ∧
    ((write_json_atomically c3WinRun c3FS "out.json" "tldr_tmp.json").1
        = .error (.writeError "perm denied") ∧
      (c3WinRun.cleanupOk = true →
        (write_json_atomically c3WinRun c3FS "out.json" "tldr_tmp.json").2.get
          "tldr_tmp.json" = none)) :=
  ⟨C3_atomic_write_failure c3PosixRun c3FS "out.json" "tldr_tmp.json" "disk full"
      (by decide) (Or.inr (Or.inr (Or.inr ⟨rfl, by decide, rfl⟩))),
   ⟨(C3_atomic_write_failure c3WinRun c3FS "out.json" "tldr_tmp.json" "perm denied"
       (by decide) (Or.inr (Or.inl ⟨rfl, by decide, rfl⟩))).1,
    (C3_atomic_write_failure c3WinRun c3FS "out.json" "tldr_tmp.json" "perm denied"
       (by decide) (Or.inr (Or.inl ⟨rfl, by decide, rfl⟩))).2.1⟩⟩

theorem C6_single_timestamp_witness :
    (∀ r ∈ c6Rec.files, r.last_scanned = c6Rec.last_updated) ∧
      c6Rec.last_updated
        = (⟨fun n => String.mk (List.replicate n 'a'), 0⟩ : Clock).fn
            (⟨fun n => String.mk (List.replicate n 'a'), 0⟩ : Clock).k ∧
      (generate_json_content c6Env "/c" "/d" ["a", "b"]
          ⟨fun n => String.mk (List.replicate n 'a'), 0⟩).2.k
        = (⟨fun n => String.mk (List.replicate n 'a'), 0⟩ : Clock).k + 1 :=
  C6_single_timestamp c6Env "/c" "/d" ["a", "b"]
    ⟨fun n => String.mk (List.replicate n 'a'), 0⟩ c6Rec (by decide)

/-- C8: the source's URL classifier accepts exactly the remote
references the spec describes (recognized host pattern, an owner
segment and a repository-name segment both present and non-empty),
and processing a reference the classifier rejects fails with the
invalid-reference error and an empty effect list: no clone is
attempted. -/
theorem C8_url_classification (genv : GHEnv) (url : String) (output_dir : Option String) :
    (is_valid_github_url url = true ↔ validRepoRefSpec url) ∧
    (is_valid_github_url url = false →
      process_github_repo genv url output_dir = (.error (.invalidReference url), [])) := by
  constructor
  · unfold is_valid_github_url validRepoRefSpec
    constructor
    · intro h
      dsimp only at h
      split_ifs at h with h1 h2 h3
      refine ⟨or_iff_not_imp_left.mpr (by simpa using h1), not_lt.mp h2, ?_, ?_⟩
      · have h3' := h3
        simp [List.isEmpty_iff] at h3'
        simpa using h3'.1
      · have h3' := h3
        simp [List.isEmpty_iff] at h3'
        simpa using h3'.2
    · rintro ⟨hhost, hlen, hp0, hp1⟩
      dsimp only
      split_ifs with g1 g2 g3
      · simp at g1
        rcases hhost with hh | hh <;> simp_all
      · omega
      · simp [List.isEmpty_iff] at g3 hp0 hp1
        rcases g3 with hg | hg
        · exact absurd hg hp0
        · exact absurd hg hp1
      · rfl
  · intro h
    simp [process_github_repo, h]

def c8Env : GHEnv :=
  { cloneResult := fun _ _ => .ok (), mkdtempName := fun pre => "/tmp/" ++ pre ++ "x" }

theorem C8_url_classification_witness :
    (is_valid_github_url "https://github.com/owner" = true
      ↔ validRepoRefSpec "https://github.com/owner") ∧
      process_github_repo c8Env "https://github.com/owner" none
        = (.error (.invalidReference "https://github.com/owner"), []) :=
  ⟨(C8_url_classification c8Env "https://github.com/owner" none).1,
   (C8_url_classification c8Env "https://github.com/owner" none).2 (by decide)⟩

def c9Env : Env :=
  { get_signatures := fun _ => .ok "def f():", provider := none,
    is_programming_file := fun _ => true }

def c9FS : FS :=
  { pathExists := fun p => p == "myrepo", isdir := fun p => p == "myrepo",
    isfile := fun _ => false, listdir := fun _ => [],
    walk := fun _ => [("myrepo", ["a.py"])], cwd := "/cwd" }

/-- C9 fails on the code: a recursive scan of the RELATIVE path
`myrepo` with the default output name resolves the default to
`myrepo/tldr.json` and then, in the recursive writer, joins that
already-root-relative name to the root again, so the combined document
is written to `myrepo/myrepo/tldr.json` — not to `tldr.json` in the
scanned directory as the claim (and the source's own docstring,
"creating one large TLDR file in the base directory") requires. -/
theorem C9_default_output_path_bug :
    (create_tldr_file c9Env c9FS "myrepo" none true ⟨fun _ => "T", 0⟩).2.1.map Prod.fst
        = ["myrepo/myrepo/tldr.json"] ∧
      (create_tldr_file c9Env c9FS "myrepo" none true ⟨fun _ => "T", 0⟩).1 = .ok () ∧
      ("myrepo/myrepo/tldr.json" : String) ≠ pjoin "myrepo" "tldr.json" :=
  ⟨by decide, by decide, by decide⟩

end TLDR
